import Mathlib

/-!
# Shallow embedding of the `bitman` crate

The repository holds two generations of the crate:

* `src/lib.rs` — the current API: the `AnyIntegerType` trait giving every
  primitive integer type indexed, most-significant-bit-first bit access
  (`set_bit`, `bit`, `max_settable_bits`, `max_bit_index`).
* `src/bit.rs` / `src/bits.rs` — an older API: `Bit` (a wrapped `bool`) and
  `Bits` (a `Vec<Bit>`), with element-wise operators, shifts, byte
  conversions and `num_traits` instances.  These files refer to a `BitMan`
  trait whose declaration and primitive-integer instances are not part of
  the sources shipped here; where an operation needs them they are
  modelled from the spec (each such definition says so in its comment).

Modelling conventions: a `Bit` is a `Bool`; a `Bits` is a `List Bool`
(index 0 = most-significant bit, as in the source); a fixed-width machine
integer is its two's-complement bit pattern, a `Nat` below `2 ^ W`;
a Rust panic is `Option.none`.
-/

namespace Bitman

/-! ## Definitions: `lib.rs`, the `AnyIntegerType` trait -/

/-- The twelve supported integer types of `lib.rs`
(`u8 u16 u32 u64 u128 usize i8 i16 i32 i64 i128 isize`), each given as
(bit width, signedness); the pointer-sized `usize`/`isize` are modelled
as 64-bit. -/
def supportedIntegerTypes : List (Nat × Bool) :=
  [(8, false), (16, false), (32, false), (64, false), (128, false), (64, false),
   (8, true), (16, true), (32, true), (64, true), (128, true), (64, true)]

namespace AnyIntegerType

/-- `AnyIntegerType::max_settable_bits`: `size_of::<T>() * 8 - 1` for a
signed type (the sign bit is not addressable), `size_of::<T>() * 8` for an
unsigned one.  `W` is the bit width `size_of::<T>() * 8`; this is the
spec's `addressable_bits`. -/
def max_settable_bits (W : Nat) (signed : Bool) : Nat :=
  if signed then W - 1 else W

/-- `AnyIntegerType::max_bit_index`: `max_settable_bits - 1`. -/
def max_bit_index (W : Nat) (signed : Bool) : Nat :=
  max_settable_bits W signed - 1

/-- `AnyIntegerType::set_bit` on the two's-complement bit pattern `x` of a
`W`-bit value.  The source panics when `max_bit_index < bit_index`
(modelled as `none`); otherwise it forms `mask = one << (max_bit_index -
bit_index)` and either ORs the mask in (`bit_value` true) or ANDs with its
complement (`!mask`, the pattern `(2 ^ W - 1) ^^^ mask`). -/
def set_bit (W : Nat) (signed : Bool) (x : Nat) (bit_index : Nat) (bit_value : Bool) :
    Option Nat :=
  if max_bit_index W signed < bit_index then none
  else
    let mask : Nat := 2 ^ (max_bit_index W signed - bit_index)
    if bit_value then some (x ||| mask)
    else some (x &&& ((2 ^ W - 1) ^^^ mask))

/-- `AnyIntegerType::bit` on the two's-complement bit pattern `x` of a
`W`-bit value: panics (`none`) when `max_bit_index < bit_number`, else
tests `x & (one << (max_bit_index - bit_number)) > 0`.  The mask sits
strictly below the sign bit for signed types, so the signed comparison
`> 0` of the source coincides with the pattern being non-zero. -/
def bit (W : Nat) (signed : Bool) (x : Nat) (bit_number : Nat) : Option Bool :=
  if max_bit_index W signed < bit_number then none
  else some (decide (x &&& 2 ^ (max_bit_index W signed - bit_number) ≠ 0))

end AnyIntegerType

/-! ## Definitions: `bit.rs`, the `Bit` type

A `Bit` is its wrapped `bool`. -/

namespace Bit

/-- `impl BitAnd for Bit`: `Self(self.0 & rhs.0)`. -/
def and (self rhs : Bool) : Bool := self && rhs

/-- `impl BitOr for Bit`: `Self(self.0 | rhs.0)`. -/
def or (self rhs : Bool) : Bool := self || rhs

/-- `impl BitXor for Bit`: `if self.0 then !rhs.0 else rhs.0`. -/
def xor (self rhs : Bool) : Bool := if self then !rhs else rhs

/-- `impl Div for Bit`: returns `self` when `rhs` is the true-bit and
panics ("Divide by Zero", modelled as `none`) when `rhs` is the
false-bit. -/
def div (self rhs : Bool) : Option Bool :=
  if rhs then some self else none

end Bit

/-! ## Definitions: `bits.rs`, the `Bits` type

A `Bits` is its inner `Vec<Bit>`, modelled as a `List Bool`. -/

namespace Bits

/-- Rust's half-open range `start..stop` as the list of indices its
iterator yields: `start, start + 1, …` while below `stop`, so empty
whenever `start ≥ stop`. -/
def rustRange (start stop : Nat) : List Nat := List.range' start (stop - start)

/-- Loop body of `impl Add for Bits` at one index: the state is
(carry, bits pushed so far).  Both `self.get(index).unwrap()` and
`rhs.get(index).unwrap()` panic (`none`) out of range; every branch of
the source body reads `rhs[index]` at least once, so the read is hoisted.
When `self[index]` is false: with carry set, the carry is cleared unless
`rhs[index]` is true and a true-bit is pushed; without carry,
`rhs[index]` is pushed.  When `self[index]` is true: the carry is set if
`rhs[index]` is true and `!rhs[index]` is pushed. -/
def addStep (self rhs : List Bool) (st : Bool × List Bool) (index : Nat) :
    Option (Bool × List Bool) := do
  let a ← self[index]?
  let b ← rhs[index]?
  if !a then
    if st.1 then pure (b, st.2 ++ [true])
    else pure (false, st.2 ++ [b])
  else pure (b || st.1, st.2 ++ [!b])

/-- `impl Add for Bits`: iterates `for index in self.inner.len()..0`
(a Rust range that is always empty) from carry `false` and an empty
output vector, then reverses the output. -/
def add (self rhs : List Bool) : Option (List Bool) := do
  let st ← (rustRange self.length 0).foldlM (addStep self rhs) (false, [])
  pure st.2.reverse

/-- `impl Not for Bits`: for each index in `0..len`, pushes `Bit(true)`
when the bit is true and `Bit(false)` when it is false — it copies each
bit, performing no complement. -/
def not (self : List Bool) : List Bool :=
  self.map (fun b => if b then true else false)

/-- Common loop shape of the element-wise `Bits` operators: while both
operands have a bit at `index_counter`, push `op` of the pair; the loop
breaks at the end of the shorter operand. -/
def zipOp (op : Bool → Bool → Bool) : List Bool → List Bool → List Bool
  | x :: xs, y :: ys => op x y :: zipOp op xs ys
  | _, _ => []

/-- `impl BitAnd for Bits`. -/
def bitand (self rhs : List Bool) : List Bool := zipOp Bit.and self rhs

/-- `impl BitOr for Bits`. -/
def bitor (self rhs : List Bool) : List Bool := zipOp Bit.or self rhs

/-- `impl BitXor for Bits`. -/
def bitxor (self rhs : List Bool) : List Bool := zipOp Bit.xor self rhs

/-- `impl Shl<u32> for Bits` (and `impl Shl<u32> for &Bits`, which
clones first): `drain(..rhs)` removes the first `rhs` bits, panicking
(`none`) when `rhs` exceeds the length, then `rhs` false-bits are pushed
at the end. -/
def shl (self : List Bool) (rhs : Nat) : Option (List Bool) :=
  if rhs ≤ self.length then some (self.drop rhs ++ List.replicate rhs false)
  else none

/-- `impl CheckedShl for Bits`: `None` when `rhs > self.bit_len()`
(strictly greater; `bit_len()` is the length), otherwise
`Some(self << rhs)`.  In the `Some` branch `rhs ≤ len`, so the unchecked
shift cannot panic; Rust's `None` is modelled as `none`. -/
def checked_shl (self : List Bool) (rhs : Nat) : Option (List Bool) :=
  if rhs > self.length then none
  else some (self.drop rhs ++ List.replicate rhs false)

/-- `BitMan::set_bit` for `Bits` (`bits.rs`): `self[index] = bit`, where
indexing goes through `get_mut(index).unwrap()` and panics (`none`) out
of range. -/
def set_bit (self : List Bool) (index : Nat) (b : Bool) : Option (List Bool) :=
  if index < self.length then some (self.set index b) else none

/-- `impl One for Bits::one`: builds `vec![Bit(false); size_of::<Bits>() * 8]`
and sets the bit at index `size_of::<Bits>() as u32 * 7`.  `sz` stands
for `size_of::<Bits>()` — 24 bytes on a 64-bit target, a `Vec<Bit>`
being three words. -/
def one (sz : Nat) : Option (List Bool) :=
  set_bit (List.replicate (sz * 8) false) (sz * 7) true

/-- `impl One for Bits::is_one`: evaluates
`(self.get(0..len - 1).unwrap().iter().all(not) || len == 1) && self.get(len).unwrap().0`
with Rust's short-circuit `&&`/`||`.  With length 0 the range end
`self.inner.len() - 1` underflows (a panic in debug builds, and in
release `get(0..usize::MAX)` is `None` so the `unwrap` panics).  When
the left operand of `&&` is true, the right operand evaluates
`self.get(len).unwrap()`, which is always out of range — panic.  When it
is false, `&&` short-circuits and the method returns `false`. -/
def is_one (self : List Bool) : Option Bool :=
  if self.length = 0 then none
  else if (self.take (self.length - 1)).all (fun x => !x) || self.length == 1 then
    none
  else some false

end Bits

/-! ## Definitions: `BitMan` for primitive integers, and the conversions

`bits.rs` and its tests call `BitMan` methods on primitive integers
(`u8::bits()`, `u8::set_bit`, `value.bit(...)` inside
`impl_to_and_from_bits!`), but the `BitMan` trait declaration and its
primitive-integer instances are not among the sources here; they are
modelled from the spec (§4.3). -/

namespace BitMan

/-- Modelled from the spec: `BitMan::bit` for a `W`-bit unsigned integer
(missing from the sources).  Spec §4.3: index 0 is the most-significant
bit, the mask sits at bit-offset `bit_len - 1 - index`, the result is
value AND mask tested against zero; fatal (`none`) when
`index ≥ bit_len`. -/
def bit (W : Nat) (value : Nat) (index : Nat) : Option Bool :=
  if index < W then some (value.testBit (W - 1 - index)) else none

/-- Modelled from the spec: `BitMan::set_bit` for a `W`-bit unsigned
integer (missing from the sources).  Spec §4.3: OR in the mask at
bit-offset `bit_len - 1 - index` to set, AND with its complement to
clear; fatal (`none`) when `index ≥ bit_len`. -/
def set_bit (W : Nat) (value : Nat) (index : Nat) (b : Bool) : Option Nat :=
  if index < W then
    some (if b then value ||| 2 ^ (W - 1 - index)
          else value &&& ((2 ^ W - 1) ^^^ 2 ^ (W - 1 - index)))
  else none

/-- Modelled from the spec: `BitMan::bits` for a `W`-bit unsigned integer
(missing from the sources).  Spec §4.3: a `Bits` of length `bit_len()`
collecting `bit(i)` for every index in order (most-significant bit
first; every index is in range, so no call is fatal). -/
def bits (W : Nat) (value : Nat) : List Bool :=
  (List.range W).map (fun i => value.testBit (W - 1 - i))

end BitMan

namespace Bits

/-- `impl From<$t> for Bits` from `impl_to_and_from_bits!` (`bits.rs`):
pushes `value_to_convert.bit(&(index as u32))` for `index` in
`0..size_of::<$t>()` — the BYTE count `sz`, not the bit count
`8 * sz`.  `BitMan::bit` for the integer is modelled from the spec
(most-significant bit first over the `8 * sz`-bit value; every pushed
index is below `8 * sz`, so no call is fatal). -/
def fromInt (sz : Nat) (value_to_convert : Nat) : List Bool :=
  (List.range sz).map (fun index => value_to_convert.testBit (8 * sz - 1 - index))

/-- `impl From<&Bits> for u8` (`impl_to_and_from_bits!`), branch for
`bit_len() ≤ 8`: starts from `u8::default() = 0`, folds
`new_value.set_bit(index, bit)` over the enumerated bits (spec-modelled
`BitMan::set_bit` for `u8`; every index is below `len ≤ 8`, so no call
is fatal and the `some` is inlined), then applies
`new_value >>= size_of::<u8>() - len` when `len < size_of::<u8>() = 1`. -/
def u8FromBitsShort (bits_to_convert : List Bool) : Nat :=
  let v := bits_to_convert.enum.foldl
    (fun acc p =>
      if p.2 then acc ||| 2 ^ (7 - p.1)
      else acc &&& ((2 ^ 8 - 1) ^^^ 2 ^ (7 - p.1))) 0
  if bits_to_convert.length < 1 then v >>> (1 - bits_to_convert.length) else v

/-- `impl From<&Bits> for u8` (`impl_to_and_from_bits!`): when
`bit_len() > size_of::<u8>() * 8 = 8` it recurses on
`get((len - size_of::<u8>())..len)` — the last SINGLE bit (`size_of` is
bytes, not bits) — and that slice's length 1 takes the non-recursive
branch, so the one-level recursion is inlined here. -/
def u8FromBits (bits_to_convert : List Bool) : Nat :=
  if bits_to_convert.length > 8 then
    u8FromBitsShort (bits_to_convert.drop (bits_to_convert.length - 1))
  else u8FromBitsShort bits_to_convert

/-- `Bits::to_be_bytes`: the inner `for` pushes each bit into a growing
prefix and, whenever `count % 8 == 0` (counts 0, 8, 16, …), pushes
`u8::from` of the prefix collected so far — the first `count + 1` bits.
The outer `loop` exits after its first pass: `current_length` rises by 8
per pushed byte, reaching `8 * ⌈len / 8⌉ ≥ len` (and `0 ≥ 0` for the
empty sequence). -/
def to_be_bytes (self : List Bool) : List Nat :=
  ((List.range self.length).filter (fun count => count % 8 == 0)).map
    (fun count => u8FromBits (self.take (count + 1)))

/-- `Bits::from_be_bytes`: appends `current_u8.bits()` (spec-modelled
`BitMan::bits` for `u8`: 8 bits, most-significant first) for each byte
in order. -/
def from_be_bytes (slice_of_bytes : List Nat) : List Bool :=
  (slice_of_bytes.map (BitMan.bits 8)).flatten

end Bits

/-! ## Theorems -/

namespace AnyIntegerType

theorem land_two_pow_ne_zero_iff (x k : Nat) :
    (x &&& 2 ^ k ≠ 0) ↔ x.testBit k = true := by
  constructor
  · intro h
    by_contra hb
    apply h
    apply Nat.eq_of_testBit_eq
    intro j
    rw [Nat.testBit_land, Nat.zero_testBit]
    rcases eq_or_ne k j with rfl | hkj
    · simp [Bool.eq_false_iff.mpr hb]
    · simp [Nat.testBit_two_pow_of_ne hkj]
  · intro h h0
    have : (x &&& 2 ^ k).testBit k = true := by
      rw [Nat.testBit_land, h, Nat.testBit_two_pow_self]
      rfl
    rw [h0, Nat.zero_testBit] at this
    exact Bool.false_ne_true this

theorem bit_eq_testBit (W : Nat) (signed : Bool) (x i : Nat)
    (hi : i < max_settable_bits W signed) :
    bit W signed x i = some (x.testBit (max_bit_index W signed - i)) := by
  have hle : ¬ max_bit_index W signed < i := by
    unfold max_bit_index at *
    omega
  unfold bit
  rw [if_neg hle]
  congr 1
  rcases h : x.testBit (max_bit_index W signed - i) with _ | _
  · simp only [decide_eq_false_iff_not, Decidable.not_not]
    by_contra hne
    have := (land_two_pow_ne_zero_iff x _).mp hne
    rw [h] at this
    exact Bool.false_ne_true this
  · simp only [decide_eq_true_eq]
    exact (land_two_pow_ne_zero_iff x _).mpr h

theorem settable_le_width (W : Nat) (s : Bool) : max_settable_bits W s ≤ W := by
  unfold max_settable_bits
  cases s <;> simp

theorem set_bit_bit_general (W : Nat) (s : Bool) (x i : Nat)
    (hi : i < max_settable_bits W s) :
    ∃ x1 x0,
      set_bit W s x i true = some x1 ∧
      set_bit W s x i false = some x0 ∧
      bit W s x1 i = some true ∧
      bit W s x0 i = some false ∧
      ∀ j, j < max_settable_bits W s → j ≠ i →
        bit W s x1 j = bit W s x j ∧ bit W s x0 j = bit W s x j := by
  have hsW : max_settable_bits W s ≤ W := settable_le_width W s
  have hmlt : ¬ max_bit_index W s < i := by
    unfold max_bit_index
    omega
  have hkW : max_bit_index W s - i < W := by
    unfold max_bit_index
    omega
  refine ⟨x ||| 2 ^ (max_bit_index W s - i),
          x &&& ((2 ^ W - 1) ^^^ 2 ^ (max_bit_index W s - i)), ?_, ?_, ?_, ?_, ?_⟩
  · unfold set_bit
    rw [if_neg hmlt]
    simp
  · unfold set_bit
    rw [if_neg hmlt]
    simp
  · rw [bit_eq_testBit W s _ i hi, Nat.testBit_lor, Nat.testBit_two_pow_self,
      Bool.or_true]
  · rw [bit_eq_testBit W s _ i hi, Nat.testBit_land, Nat.testBit_xor,
      Nat.testBit_two_pow_sub_one, Nat.testBit_two_pow_self]
    simp [hkW]
  · intro j hj hij
    have hne : max_bit_index W s - j ≠ max_bit_index W s - i := by
      unfold max_bit_index at *
      omega
    have hjW : max_bit_index W s - j < W := by
      unfold max_bit_index
      omega
    constructor
    · rw [bit_eq_testBit W s _ j hj, bit_eq_testBit W s x j hj, Nat.testBit_lor,
        Nat.testBit_two_pow_of_ne (Ne.symm hne), Bool.or_false]
    · rw [bit_eq_testBit W s _ j hj, bit_eq_testBit W s x j hj, Nat.testBit_land,
        Nat.testBit_xor, Nat.testBit_two_pow_sub_one,
        Nat.testBit_two_pow_of_ne (Ne.symm hne)]
      simp [hjW]

end AnyIntegerType

/-- C1: for each of the twelve supported integer types `(W, signed)` and
every index `i` below `max_settable_bits` (the spec's `addressable_bits`),
starting from any `W`-bit value `x`: `set_bit i true` then `bit i` yields
`true`, `set_bit i false` then `bit i` yields `false`, and in both cases
every addressable bit at an index `j ≠ i` reads the same as before. -/
theorem c1_set_bit_then_bit (t : Nat × Bool) (ht : t ∈ supportedIntegerTypes)
    (x : Nat) (hx : x < 2 ^ t.1) (i : Nat)
    (hi : i < AnyIntegerType.max_settable_bits t.1 t.2) :
    ∃ x1 x0,
      AnyIntegerType.set_bit t.1 t.2 x i true = some x1 ∧
      AnyIntegerType.set_bit t.1 t.2 x i false = some x0 ∧
      AnyIntegerType.bit t.1 t.2 x1 i = some true ∧
      AnyIntegerType.bit t.1 t.2 x0 i = some false ∧
      ∀ j, j < AnyIntegerType.max_settable_bits t.1 t.2 → j ≠ i →
        AnyIntegerType.bit t.1 t.2 x1 j = AnyIntegerType.bit t.1 t.2 x j ∧
        AnyIntegerType.bit t.1 t.2 x0 j = AnyIntegerType.bit t.1 t.2 x j :=
  AnyIntegerType.set_bit_bit_general t.1 t.2 x i hi

/-- Witness for C1 at the type `u8`, value `0`, index `3`. -/
theorem c1_set_bit_then_bit_witness :
    ∃ x1 x0,
      AnyIntegerType.set_bit 8 false 0 3 true = some x1 ∧
      AnyIntegerType.set_bit 8 false 0 3 false = some x0 ∧
      AnyIntegerType.bit 8 false x1 3 = some true ∧
      AnyIntegerType.bit 8 false x0 3 = some false ∧
      ∀ j, j < AnyIntegerType.max_settable_bits 8 false → j ≠ 3 →
        AnyIntegerType.bit 8 false x1 j = AnyIntegerType.bit 8 false 0 j ∧
        AnyIntegerType.bit 8 false x0 j = AnyIntegerType.bit 8 false 0 j :=
  c1_set_bit_then_bit (8, false) (by decide) 0 (by decide) 3 (by decide)

namespace Bits

theorem zipOp_length (op : Bool → Bool → Bool) :
    ∀ a b : List Bool, (zipOp op a b).length = min a.length b.length := by
  intro a
  induction a with
  | nil => intro b; cases b <;> simp [zipOp]
  | cons x xs ih =>
    intro b
    cases b with
    | nil => simp [zipOp]
    | cons y ys =>
      simp only [zipOp, List.length_cons, ih ys]
      omega

theorem zipOp_getElem? (op : Bool → Bool → Bool) :
    ∀ (a b : List Bool) (i : Nat), i < min a.length b.length →
      (zipOp op a b)[i]? = some (op (a.getD i false) (b.getD i false)) := by
  intro a
  induction a with
  | nil => intro b i hi; simp at hi
  | cons x xs ih =>
    intro b i hi
    cases b with
    | nil => simp at hi
    | cons y ys =>
      cases i with
      | zero => simp [zipOp]
      | succ n =>
        simp only [zipOp, List.getElem?_cons_succ, List.getD_cons_succ]
        apply ih
        simp only [List.length_cons] at hi ⊢
        omega

end Bits

/-- C2: `Bits::from` on a fixed-width integer pushes one bit per BYTE of
the type, so the produced sequence has length `size_of::<T>()` (= W/8),
not the bit-width W; concretely `Bits::from(0u8)` has length 1, not 8. -/
theorem c2_from_int_length :
    (∀ sz v : Nat, (Bits.fromInt sz v).length = sz) ∧
    (Bits.fromInt 1 0).length ≠ 8 := by
  constructor
  · intro sz v
    simp [Bits.fromInt]
  · decide

/-- C3: the big-endian byte round-trip fails on the 8-bit sequence
`0x01` = `[false ×7, true]`: `to_be_bytes` emits the single byte built
from only the first bit (giving `[0x00]`), and `from_be_bytes` turns
that back into eight false-bits, not the original sequence. -/
theorem c3_be_round_trip_failing :
    Bits.from_be_bytes (Bits.to_be_bytes
        [false, false, false, false, false, false, false, true]) =
      [false, false, false, false, false, false, false, false] ∧
    ([false, false, false, false, false, false, false, true] : List Bool) ≠
      [false, false, false, false, false, false, false, false] := by
  decide

/-- C4: the `Bits` addition operator's loop iterates the Rust range
`self.inner.len()..0`, which is always empty, so for every pair of
operands the result is the empty sequence (and no panic occurs). -/
theorem c4_add_always_empty (a b : List Bool) : Bits.add a b = some [] := by
  simp [Bits.add, Bits.rustRange]

/-- C5: the source `Not` for `Bits` pushes each bit unchanged (it copies
instead of complementing): on `[true]` it returns `[true]`, not the
complement `[false]` the claim demands. -/
theorem c5_not_is_copy_at_true :
    Bits.not [true] = [true] ∧ Bits.not [true] ≠ [false] := by
  decide

/-- C6: each element-wise operator (AND, OR, XOR) on `Bits` returns a
sequence of length `min (len a) (len b)` whose bit at every index
`i < min (len a) (len b)` is the corresponding boolean operation on the
operands' bits at `i`; the result is fully determined by these, so bits
of the longer operand beyond that length cannot affect it. -/
theorem c6_elementwise_ops (a b : List Bool) :
    ((Bits.bitand a b).length = min a.length b.length ∧
     (Bits.bitor a b).length = min a.length b.length ∧
     (Bits.bitxor a b).length = min a.length b.length) ∧
    ∀ i, i < min a.length b.length →
      (Bits.bitand a b)[i]? = some (Bit.and (a.getD i false) (b.getD i false)) ∧
      (Bits.bitor a b)[i]? = some (Bit.or (a.getD i false) (b.getD i false)) ∧
      (Bits.bitxor a b)[i]? = some (Bit.xor (a.getD i false) (b.getD i false)) := by
  refine ⟨⟨Bits.zipOp_length Bit.and a b, Bits.zipOp_length Bit.or a b,
    Bits.zipOp_length Bit.xor a b⟩, ?_⟩
  intro i hi
  exact ⟨Bits.zipOp_getElem? Bit.and a b i hi, Bits.zipOp_getElem? Bit.or a b i hi,
    Bits.zipOp_getElem? Bit.xor a b i hi⟩

/-- Witness for C6 at `a = [true]`, `b = [true, false]`, index `0`. -/
theorem c6_elementwise_ops_witness :
    ((Bits.bitand [true] [true, false]).length = min 1 2 ∧
     (Bits.bitor [true] [true, false]).length = min 1 2 ∧
     (Bits.bitxor [true] [true, false]).length = min 1 2) ∧
    ((Bits.bitand [true] [true, false])[0]? = some true ∧
     (Bits.bitor [true] [true, false])[0]? = some true ∧
     (Bits.bitxor [true] [true, false])[0]? = some false) :=
  ⟨(c6_elementwise_ops [true] [true, false]).1,
   (c6_elementwise_ops [true] [true, false]).2 0 (by decide)⟩

/-- C7 counterexample: with `b = [true]` (length 1) and shift count
`n = 1 ≥ length`, the claim demands `None`, but `checked_shl` (which
tests `rhs > bit_len()`, strictly) returns `Some([false])`. -/
theorem c7_counterexample :
    Bits.checked_shl [true] 1 = some [false] ∧
    some [false] ≠ (none : Option (List Bool)) := by
  decide

/-- C7 amended: `checked_shl` returns `None` exactly when the count
STRICTLY exceeds the length; for every `n ≤ length` it returns `Some` of
the shifted sequence, which drops the first `n` bits, ends with `n`
false-bits, and keeps the original length. -/
theorem c7_checked_shl_amended (b : List Bool) (n : Nat) (h : n ≤ b.length) :
    Bits.checked_shl b n = some (b.drop n ++ List.replicate n false) ∧
    (b.drop n ++ List.replicate n false).length = b.length ∧
    ∀ m, b.length < m → Bits.checked_shl b m = none := by
  refine ⟨?_, ?_, ?_⟩
  · unfold Bits.checked_shl
    rw [if_neg (by omega)]
  · simp only [List.length_append, List.length_drop, List.length_replicate]
    omega
  · intro m hm
    unfold Bits.checked_shl
    rw [if_pos hm]

/-- Witness for C7 at `b = [true, false]`, `n = 1` (and overflow count 3). -/
theorem c7_checked_shl_amended_witness :
    Bits.checked_shl [true, false] 1 = some [false, false] ∧
    ([false, false] : List Bool).length = 2 ∧
    Bits.checked_shl [true, false] 3 = none :=
  ⟨(c7_checked_shl_amended [true, false] 1 (by decide)).1,
   (c7_checked_shl_amended [true, false] 1 (by decide)).2.1,
   (c7_checked_shl_amended [true, false] 1 (by decide)).2.2 3 (by decide)⟩

set_option maxRecDepth 10000 in
/-- C8: with `size_of::<Bits>() = 24` (64-bit target), `One::one()`
builds 192 false-bits and sets index `24 * 7 = 168` — the bit at the
last position (index 191, the least-significant bit the claim demands)
stays false, and the sole true-bit sits at index 168. -/
theorem c8_one_sets_wrong_bit :
    Bits.one 24 = some ((List.replicate 192 false).set 168 true) ∧
    ((List.replicate 192 false).set 168 true).getD 191 true = false ∧
    ((List.replicate 192 false).set 168 true).getD 168 false = true ∧
    ((List.replicate 192 false).set 168 true).length = 192 := by
  decide

/-- C9: dividing any `Bit` by the true-bit returns the dividend
unchanged, and dividing any `Bit` by the false-bit panics ("Divide by
Zero") instead of returning a value. -/
theorem c9_bit_div (x : Bool) :
    Bit.div x true = some x ∧ Bit.div x false = none := by
  constructor <;> simp [Bit.div]

/-- C10 counterexample: on `[true, false]` (length 2 with a true bit
before the last), the left operand of the source's `&&` is false, the
out-of-range read short-circuits away, and `is_one` returns `false` —
it does not fail, refuting "always fails". -/
theorem c10_counterexample :
    Bits.is_one [true, false] = some false ∧
    some false ≠ (none : Option Bool) := by
  decide

/-- C10 amended: `is_one` never returns `true`; it fails (out-of-range
read, or underflow on the empty sequence) exactly when the sequence is
empty or every bit before the last is false (including length 1), and
otherwise — some bit before the last being true — it returns `false`
without failing. -/
theorem c10_is_one_amended (b : List Bool) :
    Bits.is_one b ≠ some true ∧
    (b.length = 0 → Bits.is_one b = none) ∧
    ((b.take (b.length - 1)).all (fun x => !x) = true → Bits.is_one b = none) ∧
    (b.length ≠ 0 → (b.take (b.length - 1)).all (fun x => !x) = false →
      Bits.is_one b = some false) := by
  refine ⟨?_, ?_, ?_, ?_⟩
  · unfold Bits.is_one
    split_ifs <;> simp
  · intro h0
    unfold Bits.is_one
    rw [if_pos h0]
  · intro hall
    unfold Bits.is_one
    by_cases h0 : b.length = 0
    · rw [if_pos h0]
    · rw [if_neg h0, if_pos (by simp [hall])]
  · intro h0 hall
    have h1 : b.length ≠ 1 := by
      intro h1
      rw [h1] at hall
      simp at hall
    unfold Bits.is_one
    rw [if_neg h0, if_neg (by simp [hall, h1])]

/-- Witness for C10 on the empty sequence, `[false, true]` (binary one,
which makes `is_one` fail) and `[true, false]` (which returns `false`). -/
theorem c10_is_one_amended_witness :
    Bits.is_one [true, false] ≠ some true ∧
    Bits.is_one [] = none ∧
    Bits.is_one [false, true] = none ∧
    Bits.is_one [true, false] = some false :=
  ⟨(c10_is_one_amended [true, false]).1,
   (c10_is_one_amended []).2.1 (by decide),
   (c10_is_one_amended [false, true]).2.2.1 (by decide),
   (c10_is_one_amended [true, false]).2.2.2 (by decide) (by decide)⟩

end Bitman
